import Mathlib

/-!
Verification of the SaveIt search-and-ranking engine.

The TypeScript sources are shallowly embedded:
* JavaScript strings are modelled as lists of UTF-16 code units (`List Nat`);
  `toLowerCase`/`toUpperCase` perform full Default Case Conversion unit by
  unit (a unit may case-convert to several units, e.g. ß to "SS"), modelled
  exactly on the ASCII range and on the special code points ß, ﬁ, ﬂ, İ and
  U+212A; `trim` strips the ASCII whitespace class, and
  `String.prototype.includes` is the executable substring test `hasSub`.
  Universally quantified statements about case conversion are restricted to
  the ASCII range, where the model is exact.
* `normalizeTopic`, the filter pipeline `filteredItems` and its stages come
  from `src/components/ItemCard.tsx` (App component, lines 87-228).
* The persistence facade (`backendAPI.items.save` / `updateEnrichment`)
  from `src/services/apiService.ts` is modelled as pure functions on the
  list of stored records, with IndexedDB `put` embedded as an upsert keyed
  on `id`.
* `Array.prototype.sort(cmp)` (stable since ES2019) is modelled as a stable
  insertion sort with respect to the boolean relation `cmp a b ≤ 0`.
* `getSearchIntent` from `src/services/apiService.ts` (lines 179-213) is
  embedded as a function of the network/LLM outcome: the generateContent
  call either rejects, or responds with text whose JSON parse either yields
  a `SearchIntent` or fails.
-/

namespace SaveIt

/-- A JavaScript string literal as a list of code units. -/
def str (s : String) : List Nat := s.toList.map Char.toNat

/-- Simple (single-unit) lower-case mapping: ASCII `A`-`Z`, plus
U+212A KELVIN SIGN whose lower case is `k`. -/
def lowerCode (n : Nat) : Nat :=
  if 65 ≤ n ∧ n ≤ 90 then n + 32
  else if n = 8490 then 107
  else n

/-- Simple (single-unit) upper-case mapping: ASCII `a`-`z`. -/
def upperCode (n : Nat) : Nat := if 97 ≤ n ∧ n ≤ 122 then n - 32 else n

/-- Full Default Case Conversion to lower case of one code unit, which may
produce several units: U+0130 İ lower-cases to `i` followed by U+0307
COMBINING DOT ABOVE. The mapping is exact on the ASCII range and on the
special code points listed here; other code points are modelled as
case-invariant, and no universally quantified theorem in this file reaches
beyond the ASCII range. -/
def lowerMap (n : Nat) : List Nat :=
  if n = 304 then [105, 775]
  else [lowerCode n]

/-- Full Default Case Conversion to upper case of one code unit, which may
produce several units: U+00DF ß upper-cases to `SS`, the ligatures U+FB01 ﬁ
and U+FB02 ﬂ to `FI` and `FL`. The mapping is exact on the ASCII range and
on the special code points listed here; other code points are modelled as
case-invariant, and no universally quantified theorem in this file reaches
beyond the ASCII range. -/
def upperMap (n : Nat) : List Nat :=
  if n = 223 then [83, 83]
  else if n = 64257 then [70, 73]
  else if n = 64258 then [70, 76]
  else [upperCode n]

/-- `String.prototype.toLowerCase` (full case conversion, unit by unit). -/
def toLowerS (s : List Nat) : List Nat := s.flatMap lowerMap

/-- ASCII whitespace class used by `String.prototype.trim` and `/\s+/`. -/
def isWS (n : Nat) : Bool := decide (n = 9 ∨ n = 10 ∨ n = 11 ∨ n = 12 ∨ n = 13 ∨ n = 32)

/-- `String.prototype.trim`: drop whitespace from both ends. -/
def trimS (s : List Nat) : List Nat := ((s.dropWhile isWS).reverse.dropWhile isWS).reverse

/-- Booleanised list prefix test (needle first). -/
def isPrefixL : List Nat → List Nat → Bool
  | [], _ => true
  | _ :: _, [] => false
  | a :: as, b :: bs => a == b && isPrefixL as bs

/-- `String.prototype.includes`: `hasSub nd hay` holds when `nd` occurs
contiguously inside `hay`. -/
def hasSub (nd : List Nat) : List Nat → Bool
  | [] => nd.isEmpty
  | c :: rest => isPrefixL nd (c :: rest) || hasSub nd rest

/-- `topic.charAt(0).toUpperCase() + topic.slice(1).toLowerCase()`: the
one-unit `charAt(0)` string is upper-cased (possibly to several units, as
for ß) and the remainder is lower-cased. -/
def capitalizeS : List Nat → List Nat
  | [] => []
  | c :: rest => upperMap c ++ rest.flatMap lowerMap

/-- `query.split(/\s+/)` modelled as the maximal whitespace-free runs;
the accumulator carries the current run in reverse. -/
def wordsAux (acc : List Nat) : List Nat → List (List Nat)
  | [] => if acc.isEmpty then [] else [acc.reverse]
  | c :: rest =>
    if isWS c then
      (if acc.isEmpty then wordsAux [] rest else acc.reverse :: wordsAux [] rest)
    else wordsAux (c :: acc) rest

/-- Split a string on runs of whitespace. -/
def wordsWS (s : List Nat) : List (List Nat) := wordsAux [] s

/-- Trigger substrings of the `Finance` branch of `normalizeTopic`. -/
def finTrig : List (List Nat) := [str "finance", str "invest", str "money", str "trading"]

/-- Trigger substrings of the `Fitness` branch. -/
def fitTrig : List (List Nat) := [str "gym", str "workout", str "fitness", str "exercise"]

/-- Trigger substrings of the `Food` branch. -/
def foodTrig : List (List Nat) := [str "recipe", str "cooking", str "food", str "baking", str "meal"]

/-- Trigger substrings of the `Tech` branch. -/
def techTrig : List (List Nat) := [str "tech", str "software", str "programming", str "ai", str "coding"]

/-- Trigger substrings of the `Travel` branch. -/
def travTrig : List (List Nat) := [str "travel", str "vacation", str "trip", str "place"]

/-- Trigger substrings of the `Fashion` branch. -/
def fashTrig : List (List Nat) := [str "fashion", str "style", str "outfit"]

/-- One `||`-chain of `t.includes(...)` checks from `normalizeTopic`. -/
def anyTrig (ws : List (List Nat)) (t : List Nat) : Bool := ws.any (fun w => hasSub w t)

/-- `normalizeTopic` from `src/components/ItemCard.tsx` lines 87-96. -/
def normalizeTopic (topic : List Nat) : List Nat :=
  let t := trimS (toLowerS topic)
  if anyTrig finTrig t then str "Finance"
  else if anyTrig fitTrig t then str "Fitness"
  else if anyTrig foodTrig t then str "Food"
  else if anyTrig techTrig t then str "Tech"
  else if anyTrig travTrig t then str "Travel"
  else if anyTrig fashTrig t then str "Fashion"
  else capitalizeS topic

/-- The canonical topic labels that `normalizeTopic` can return. -/
def labels : List (List Nat) :=
  [str "Finance", str "Fitness", str "Food", str "Tech", str "Travel", str "Fashion"]

/-- The category table of `normalizeTopic`, in evaluation order. -/
def catTable : List (List Nat × List (List Nat)) :=
  [(str "Finance", finTrig), (str "Fitness", fitTrig), (str "Food", foodTrig),
   (str "Tech", techTrig), (str "Travel", travTrig), (str "Fashion", fashTrig)]

/-! ### Data model (`src/types.ts`) -/

/-- The `Platform` enum. -/
inductive Platform
  | instagram
  | youtube
  | unknown
  deriving DecidableEq

/-- The `SavedItem` record. `debugInfo` is opaque to every modelled
operation and is omitted; the optional `isEnriching` flag is embedded as a
plain boolean. -/
structure SavedItem where
  id : List Nat
  url : List Nat
  title : List Nat
  description : List Nat
  thumbnail : List Nat
  creator : List Nat
  platform : Platform
  tags : List (List Nat)
  topic : List Nat
  summary : List Nat
  dateAdded : Int
  sequenceNumber : Int
  engagementScore : Int
  isEnriching : Bool
  deriving DecidableEq

/-- The four `sortBy` literals of `SearchIntentResponse`. -/
inductive SortMode
  | dateDesc
  | dateAsc
  | engagementDesc
  | sequenceDesc
  deriving DecidableEq

/-- `SearchIntentResponse` from `src/services/apiService.ts`. -/
structure SearchIntent where
  keywords : List (List Nat)
  topics : List (List Nat)
  intent : List Nat
  sortBy : Option SortMode
  limit : Option Int
  deriving DecidableEq

/-- `AIEnrichmentResponse` from `src/services/apiService.ts`. -/
structure AIEnrichment where
  tags : List (List Nat)
  topic : List Nat
  summary : List Nat
  suggestedTitle : Option (List Nat)
  engagementScore : Option Int
  deriving DecidableEq

/-! ### The filter pipeline (`filteredItems`, ItemCard.tsx lines 153-228) -/

/-- The code units of a single space. -/
def spc : List Nat := str " "

/-- The lower-cased haystack
``(title + " " + topic + " " + summary + " " + creator + " " + tags.join(" ")).toLowerCase()``. -/
def searchableText (item : SavedItem) : List Nat :=
  toLowerS (item.title ++ spc ++ item.topic ++ spc ++ item.summary ++ spc ++
    item.creator ++ spc ++ (List.intercalate spc item.tags))

/-- The category-filter predicate (ItemCard.tsx lines 159-163). -/
def categoryKeep (activeFilter : List Nat) (item : SavedItem) : Bool :=
  (toLowerS (normalizeTopic item.topic) == toLowerS activeFilter) ||
    item.tags.any (fun t => toLowerS (normalizeTopic t) == toLowerS activeFilter)

/-- Stage 1 of `filteredItems`: the label/filter system. -/
def categoryStage (activeFilter : List Nat) (items : List SavedItem) : List SavedItem :=
  if activeFilter ≠ str "all" then items.filter (categoryKeep activeFilter) else items

/-- `query.split(/\s+/).filter(w => w.length > 0)`. -/
def queryTokens (query : List Nat) : List (List Nat) :=
  (wordsWS query).filter (fun w => decide (0 < w.length))

/-- The text-filter predicate (ItemCard.tsx lines 172-190): exact all-words
matching with a fallback to intent keywords/topics when an intent exists. -/
def textKeep (searchIntent : Option SearchIntent) (queryWords : List (List Nat))
    (item : SavedItem) : Bool :=
  let matchesAllWords := queryWords.all (fun w => hasSub w (searchableText item))
  if matchesAllWords then true
  else
    match searchIntent with
    | some intent =>
      let matchesAiKeyword :=
        intent.keywords.any (fun k => hasSub (toLowerS k) (searchableText item))
      let matchesAiTopic := intent.topics.any (fun t =>
        hasSub (toLowerS t) (toLowerS (normalizeTopic item.topic)) ||
          (toLowerS (normalizeTopic t) == toLowerS (normalizeTopic item.topic)))
      matchesAiKeyword || matchesAiTopic
    | none => false

/-- Stage 2 of `filteredItems`: exact keyword matching and intent filtering,
skipped when the (lower-cased, trimmed) query is empty. -/
def textStage (searchIntent : Option SearchIntent) (query : List Nat)
    (items : List SavedItem) : List SavedItem :=
  if query ≠ [] then items.filter (textKeep searchIntent (queryTokens query))
  else items

/-- `x || 0` on a JavaScript number. -/
def jsOrZero (x : Int) : Int := if x = 0 then 0 else x

/-- The primary sort comparator (ItemCard.tsx lines 196-208). -/
def cmpPrimary (mode : SortMode) (a b : SavedItem) : Int :=
  match mode with
  | .engagementDesc => jsOrZero b.engagementScore - jsOrZero a.engagementScore
  | .sequenceDesc => b.sequenceNumber - a.sequenceNumber
  | .dateAsc => a.dateAdded - b.dateAdded
  | .dateDesc => b.dateAdded - a.dateAdded

/-- The stabilization comparator (ItemCard.tsx lines 212-219): primary key
with an explicit `dateAdded`-descending tie-break. -/
def cmpStab (mode : SortMode) (a b : SavedItem) : Int :=
  let primary := if mode = .engagementDesc
    then jsOrZero b.engagementScore - jsOrZero a.engagementScore
    else b.sequenceNumber - a.sequenceNumber
  if primary = 0 then b.dateAdded - a.dateAdded else primary

/-- Insert `x` after every element `y` with `le y x`: later-inserted
elements land after their equivalents, giving a stable sort. -/
def insertLe {α : Type} (le : α → α → Bool) (x : α) : List α → List α
  | [] => [x]
  | y :: ys => if le y x then y :: insertLe le x ys else x :: y :: ys

/-- Stable insertion sort, processing the input left to right. -/
def sortByLe {α : Type} (le : α → α → Bool) (l : List α) : List α :=
  l.foldl (fun acc x => insertLe le x acc) []

/-- `Array.prototype.sort(cmp)` for a numeric comparator (stable per
ES2019): order by the total preorder `cmp a b ≤ 0`. -/
def stableSortBy (cmp : SavedItem → SavedItem → Int) (l : List SavedItem) : List SavedItem :=
  sortByLe (fun a b => decide (cmp a b ≤ 0)) l

/-- `searchIntent?.sortBy || 'date-desc'`. -/
def resolveSortMode (searchIntent : Option SearchIntent) : SortMode :=
  (searchIntent.bind SearchIntent.sortBy).getD .dateDesc

/-- Stage 3 of `filteredItems`: the primary sort followed, for the two
non-chronological modes, by the stabilization sort pass. -/
def rankStage (mode : SortMode) (l : List SavedItem) : List SavedItem :=
  let sorted := stableSortBy (cmpPrimary mode) l
  if mode ≠ .dateAsc ∧ mode ≠ .dateDesc then stableSortBy (cmpStab mode) sorted
  else sorted

/-- Stage 4 of `filteredItems`: `if (searchIntent?.limit && searchIntent.limit > 0)
result.slice(0, limit)`. -/
def limitStage (searchIntent : Option SearchIntent) (l : List SavedItem) : List SavedItem :=
  match searchIntent.bind SearchIntent.limit with
  | some n => if 0 < n then l.take n.toNat else l
  | none => l

/-- The `filteredItems` memo (ItemCard.tsx lines 153-228). -/
def filteredItems (items : List SavedItem) (searchQuery : List Nat)
    (activeFilter : List Nat) (searchIntent : Option SearchIntent) : List SavedItem :=
  let query := trimS (toLowerS searchQuery)
  let r1 := categoryStage activeFilter items
  let r2 := textStage searchIntent query r1
  let r3 := rankStage (resolveSortMode searchIntent) r2
  limitStage searchIntent r3

/-! ### Persistence (`src/services/apiService.ts` lines 72-108) -/

/-- `all.reduce((max, i) => Math.max(max, i.sequenceNumber || 0), 0)`. -/
def maxSeq (store : List SavedItem) : Int :=
  store.foldl (fun m i => max m (jsOrZero i.sequenceNumber)) 0

/-- IndexedDB `store.put` on an object store with `keyPath: 'id'`: replace
the record with the same key, or add the record. -/
def putItem : List SavedItem → SavedItem → List SavedItem
  | [], item => [item]
  | i :: rest, item => if i.id == item.id then item :: rest else i :: putItem rest item

/-- `backendAPI.items.save` (lines 77-85): a sentinel sequence number `-1`
is resolved to `maxSeq + 1` before the upsert. -/
def saveItem (store : List SavedItem) (item : SavedItem) : List SavedItem :=
  if item.sequenceNumber = -1 then
    putItem store { item with sequenceNumber := maxSeq store + 1 }
  else putItem store item

/-- `Array.from(new Set(...))`: deduplicate keeping first occurrences. -/
def insertionDedupAux (seen : List (List Nat)) : List (List Nat) → List (List Nat)
  | [] => []
  | a :: as =>
    if seen.contains a then insertionDedupAux seen as
    else a :: insertionDedupAux (a :: seen) as

/-- JavaScript Set-based deduplication in insertion order. -/
def insertionDedup (l : List (List Nat)) : List (List Nat) := insertionDedupAux [] l

/-- `item.title === "Instagram Reel" || item.title === "Capturing..."`. -/
def placeholderTitle (title : List Nat) : Bool :=
  (title == str "Instagram Reel") || (title == str "Capturing...")

/-- The record built by `updateEnrichment` (lines 93-103); a truthy
`suggestedTitle` is a present, nonempty string, and a falsy
`engagementScore` (absent or `0`) keeps the existing score. -/
def enrichedItem (item : SavedItem) (aiData : AIEnrichment) : SavedItem :=
  { item with
    title := match aiData.suggestedTitle with
      | some s => if placeholderTitle item.title && !s.isEmpty then s else item.title
      | none => item.title,
    tags := insertionDedup (item.tags ++ aiData.tags),
    topic := aiData.topic,
    summary := aiData.summary,
    engagementScore := match aiData.engagementScore with
      | some v => if v = 0 then item.engagementScore else v
      | none => item.engagementScore,
    isEnriching := false }

/-- `backendAPI.items.updateEnrichment` (lines 89-106): find the record by
id, merge the enrichment patch, and save; silently do nothing when the id
is unknown. -/
def updateEnrichment (store : List SavedItem) (id : List Nat) (aiData : AIEnrichment) :
    List SavedItem :=
  match store.find? (fun i => i.id == id) with
  | some item => putItem store (enrichedItem item aiData)
  | none => store

/-! ### Intent extraction (`getSearchIntent` and the App debounce effect) -/

/-- Outcome of the `ai.models.generateContent` call inside
`getSearchIntent`: the promise rejects, or it responds with text whose
`JSON.parse` either yields a structured intent or throws. -/
inductive GenContentOutcome
  | reject
  | respond (parsed : Option SearchIntent)

/-- The catch-branch result of `getSearchIntent`:
`{ keywords: [query], topics: [], intent: query }`. -/
def fallbackIntent (query : List Nat) : SearchIntent :=
  { keywords := [query], topics := [], intent := query, sortBy := none, limit := none }

/-- `getSearchIntent` (apiService.ts lines 179-213): a rejected model call
propagates as an error; a response that fails to parse is caught and
replaced by `fallbackIntent`. -/
def getSearchIntent (query : List Nat) (o : GenContentOutcome) : Except Unit SearchIntent :=
  match o with
  | .reject => .error ()
  | .respond (some r) => .ok r
  | .respond none => .ok (fallbackIntent query)

/-- The debounced intent-extraction effect (ItemCard.tsx lines 136-151):
queries of trimmed length > 3 call `getSearchIntent`, catching errors into
the absent intent; shorter queries clear the intent. -/
def intentEffect (searchQuery : List Nat) (o : GenContentOutcome) : Option SearchIntent :=
  let queryTrim := trimS searchQuery
  if 3 < queryTrim.length then
    match getSearchIntent queryTrim o with
    | .ok i => some i
    | .error _ => none
  else none

/-! ### Concrete records used by witnesses and counterexamples -/

/-- A sample enriched record. -/
def itemA : SavedItem :=
  { id := str "a", url := str "u1", title := str "Market basics",
    description := str "", thumbnail := str "t1", creator := str "@alice",
    platform := .youtube, tags := [str "learning"], topic := str "Crypto Trading",
    summary := str "intro video", dateAdded := 100, sequenceNumber := 1,
    engagementScore := 0, isEnriching := false }

/-- A second sample record. -/
def itemB : SavedItem :=
  { id := str "b", url := str "u2", title := str "5 pasta recipes",
    description := str "", thumbnail := str "t2", creator := str "@bob",
    platform := .instagram, tags := [str "cooking"], topic := str "Recipes",
    summary := str "easy meals", dateAdded := 200, sequenceNumber := 2,
    engagementScore := 500, isEnriching := false }

/-- Tie-break counterexample record: equal score and equal date as `cItemY`. -/
def cItemX : SavedItem :=
  { id := str "x", url := str "ux", title := str "first",
    description := str "", thumbnail := str "", creator := str "@x",
    platform := .unknown, tags := [], topic := str "Misc",
    summary := str "", dateAdded := 100, sequenceNumber := 3,
    engagementScore := 5, isEnriching := false }

/-- Tie-break counterexample record: equal score and equal date as `cItemX`. -/
def cItemY : SavedItem :=
  { id := str "y", url := str "uy", title := str "second",
    description := str "", thumbnail := str "", creator := str "@y",
    platform := .unknown, tags := [], topic := str "Misc",
    summary := str "", dateAdded := 100, sequenceNumber := 4,
    engagementScore := 5, isEnriching := false }

/-- Tie-break witness record: equal score as `eItem2`, newer date. -/
def eItem1 : SavedItem :=
  { id := str "e1", url := str "ue1", title := str "clip one",
    description := str "", thumbnail := str "", creator := str "@e1",
    platform := .unknown, tags := [], topic := str "Misc",
    summary := str "", dateAdded := 500, sequenceNumber := 5,
    engagementScore := 10, isEnriching := false }

/-- Tie-break witness record: equal score as `eItem1`, older date. -/
def eItem2 : SavedItem :=
  { id := str "e2", url := str "ue2", title := str "clip two",
    description := str "", thumbnail := str "", creator := str "@e2",
    platform := .unknown, tags := [], topic := str "Misc",
    summary := str "", dateAdded := 400, sequenceNumber := 6,
    engagementScore := 10, isEnriching := false }

/-- A fresh capture with the sentinel sequence number. -/
def newItem1 : SavedItem :=
  { id := str "n1", url := str "un1", title := str "New Memory",
    description := str "Saving...", thumbnail := str "", creator := str "@capturing",
    platform := .unknown, tags := [str "saving"], topic := str "Capturing...",
    summary := str "Capturing details...", dateAdded := 300, sequenceNumber := -1,
    engagementScore := 0, isEnriching := true }

/-- A second fresh capture with the sentinel sequence number. -/
def newItem2 : SavedItem :=
  { id := str "n2", url := str "un2", title := str "New Memory",
    description := str "Saving...", thumbnail := str "", creator := str "@capturing",
    platform := .unknown, tags := [str "saving"], topic := str "Capturing...",
    summary := str "Capturing details...", dateAdded := 301, sequenceNumber := -1,
    engagementScore := 0, isEnriching := true }

/-- A sample enrichment patch. -/
def patchA : AIEnrichment :=
  { tags := [str "cooking", str "dinner"], topic := str "Food",
    summary := str "weeknight meals", suggestedTitle := some (str "Pasta night"),
    engagementScore := some 700 }

/-- A sample extracted intent. -/
def intentW : SearchIntent :=
  { keywords := [], topics := [str "recipes"], intent := str "most liked recipes",
    sortBy := some .engagementDesc, limit := none }

/-- An item whose topic starts with ß, so its normalized topic "SStylex"
arises from the full upper-case mapping of ß. -/
def itemC : SavedItem :=
  { id := str "c", url := str "uc", title := str "mood board",
    description := str "", thumbnail := str "tc", creator := str "@carla",
    platform := .instagram, tags := [], topic := str "ßtylex",
    summary := str "looks", dateAdded := 150, sequenceNumber := 7,
    engagementScore := 0, isEnriching := false }

/-- An intent whose only topic starts with ß: lower-casing it keeps the ß,
while normalizing it first yields "SStyle". -/
def intentC : SearchIntent :=
  { keywords := [], topics := [str "ßtyle"], intent := str "ßtyle looks",
    sortBy := none, limit := none }

/-! ### Character-level lemmas

Lower-casing is idempotent on every modelled code unit, but upper-casing
composed with lower-casing only retraces the input on the ASCII range: full
mappings such as ß → "SS" break it, which is why the lemmas about
`capitalizeS` below carry an ASCII hypothesis. -/

theorem lowerCode_lowerCode (n : Nat) : lowerCode (lowerCode n) = lowerCode n := by
  unfold lowerCode
  split_ifs <;> omega

theorem lowerCode_upperCode (n : Nat) : lowerCode (upperCode n) = lowerCode n := by
  unfold upperCode lowerCode
  split_ifs <;> omega

theorem upperCode_upperCode (n : Nat) : upperCode (upperCode n) = upperCode n := by
  unfold upperCode
  split_ifs <;> omega

theorem lowerCode_ne_304 (n : Nat) (h : n ≠ 304) : lowerCode n ≠ 304 := by
  unfold lowerCode
  split_ifs <;> omega

theorem lowerMap_flat_lowerMap (n : Nat) : (lowerMap n).flatMap lowerMap = lowerMap n := by
  by_cases h : n = 304
  · subst h
    decide
  · simp only [lowerMap, if_neg h, List.flatMap_cons, List.flatMap_nil, List.append_nil]
    rw [if_neg (lowerCode_ne_304 n h), lowerCode_lowerCode]

theorem toLowerS_toLowerS (s : List Nat) : toLowerS (toLowerS s) = toLowerS s := by
  simp only [toLowerS]
  induction s with
  | nil => rfl
  | cons c cs ih =>
    simp only [List.flatMap_cons, List.flatMap_append, ih, lowerMap_flat_lowerMap]

theorem lowerCode_lt_128 {n : Nat} (h : n < 128) : lowerCode n < 128 := by
  unfold lowerCode
  split_ifs <;> omega

theorem upperCode_lt_128 {n : Nat} (h : n < 128) : upperCode n < 128 := by
  unfold upperCode
  split_ifs <;> omega

theorem lowerMap_ascii {n : Nat} (h : n < 128) : lowerMap n = [lowerCode n] := by
  unfold lowerMap
  rw [if_neg]
  omega

theorem upperMap_ascii {n : Nat} (h : n < 128) : upperMap n = [upperCode n] := by
  unfold upperMap
  rw [if_neg, if_neg, if_neg] <;> omega

/-- On ASCII strings, lower-casing absorbs the capitalization step. False
for full case mappings (ß): see the C9 counterexample. -/
theorem toLowerS_capitalizeS_ascii {s : List Nat} (h : ∀ c ∈ s, c < 128) :
    toLowerS (capitalizeS s) = toLowerS s := by
  cases s with
  | nil => rfl
  | cons c rest =>
    have hc : c < 128 := h c (by simp)
    have h2 : (rest.flatMap lowerMap).flatMap lowerMap = rest.flatMap lowerMap := by
      have h3 := toLowerS_toLowerS rest
      simpa [toLowerS] using h3
    simp only [capitalizeS, toLowerS, List.flatMap_append, List.flatMap_cons, h2,
      upperMap_ascii hc, List.flatMap_nil, List.append_nil,
      lowerMap_ascii (upperCode_lt_128 hc), lowerMap_ascii hc, lowerCode_upperCode]

/-- On ASCII strings, capitalization is idempotent. False for full case
mappings (ß): see the C9 counterexample. -/
theorem capitalizeS_capitalizeS_ascii {s : List Nat} (h : ∀ c ∈ s, c < 128) :
    capitalizeS (capitalizeS s) = capitalizeS s := by
  cases s with
  | nil => rfl
  | cons c rest =>
    have hc : c < 128 := h c (by simp)
    have h2 : (rest.flatMap lowerMap).flatMap lowerMap = rest.flatMap lowerMap := by
      have h3 := toLowerS_toLowerS rest
      simpa [toLowerS] using h3
    rw [show capitalizeS (c :: rest) = upperMap c ++ rest.flatMap lowerMap from rfl,
      upperMap_ascii hc, List.singleton_append,
      show capitalizeS (upperCode c :: rest.flatMap lowerMap) =
        upperMap (upperCode c) ++ (rest.flatMap lowerMap).flatMap lowerMap from rfl,
      upperMap_ascii (upperCode_lt_128 hc), upperCode_upperCode, h2,
      List.singleton_append]

/-! ### Substring lemmas for `hasSub` -/

theorem isPrefixL_iff (nd l : List Nat) :
    isPrefixL nd l = true ↔ ∃ v, l = nd ++ v := by
  induction nd generalizing l with
  | nil => simp [isPrefixL]
  | cons a as ih =>
    cases l with
    | nil =>
      simp [isPrefixL]
    | cons b bs =>
      simp only [isPrefixL, Bool.and_eq_true, beq_iff_eq, ih, List.cons_append, List.cons.injEq]
      constructor
      · rintro ⟨rfl, v, rfl⟩
        exact ⟨v, rfl, rfl⟩
      · rintro ⟨v, rfl, rfl⟩
        exact ⟨rfl, v, rfl⟩

theorem hasSub_iff (nd hay : List Nat) :
    hasSub nd hay = true ↔ ∃ u v, hay = u ++ nd ++ v := by
  induction hay with
  | nil =>
    simp only [hasSub, List.isEmpty_iff]
    constructor
    · rintro rfl
      exact ⟨[], [], rfl⟩
    · rintro ⟨u, v, h⟩
      have h2 := (List.append_eq_nil.mp h.symm).1
      exact (List.append_eq_nil.mp h2).2
  | cons c rest ih =>
    simp only [hasSub, Bool.or_eq_true, isPrefixL_iff, ih]
    constructor
    · rintro (⟨v, hv⟩ | ⟨u, v, huv⟩)
      · exact ⟨[], v, by simp [hv]⟩
      · exact ⟨c :: u, v, by simp [huv]⟩
    · rintro ⟨u, v, huv⟩
      cases u with
      | nil =>
        exact Or.inl ⟨v, by simpa using huv⟩
      | cons a u' =>
        simp only [List.cons_append, List.cons.injEq] at huv
        exact Or.inr ⟨u', v, huv.2⟩

theorem hasSub_refl (l : List Nat) : hasSub l l = true := by
  rw [hasSub_iff]
  exact ⟨[], [], by simp⟩

theorem hasSub_trans {a b c : List Nat}
    (h1 : hasSub a b = true) (h2 : hasSub b c = true) : hasSub a c = true := by
  rw [hasSub_iff] at h1 h2 ⊢
  obtain ⟨u1, v1, rfl⟩ := h1
  obtain ⟨u2, v2, rfl⟩ := h2
  exact ⟨u2 ++ u1, v1 ++ v2, by simp⟩

theorem hasSub_length {a b : List Nat} (h : hasSub a b = true) : a.length ≤ b.length := by
  rw [hasSub_iff] at h
  obtain ⟨u, v, rfl⟩ := h
  simp only [List.length_append]
  omega

theorem hasSub_antisymm {a b : List Nat}
    (h1 : hasSub a b = true) (h2 : hasSub b a = true) : a = b := by
  have hl1 := hasSub_length h1
  have hl2 := hasSub_length h2
  rw [hasSub_iff] at h1
  obtain ⟨u, v, rfl⟩ := h1
  simp only [List.length_append] at hl1 hl2
  have hu : u = [] := List.eq_nil_of_length_eq_zero (by omega)
  have hv : v = [] := List.eq_nil_of_length_eq_zero (by omega)
  subst hu hv
  simp

theorem hasSub_reverse {a b : List Nat} (h : hasSub a b = true) :
    hasSub a.reverse b.reverse = true := by
  rw [hasSub_iff] at h ⊢
  obtain ⟨u, v, rfl⟩ := h
  exact ⟨v.reverse, u.reverse, by simp⟩

/-- Dropping leading whitespace cannot destroy an occurrence of a nonempty
whitespace-free needle. -/
theorem hasSub_dropWhile {nd s : List Nat} (hne : nd ≠ [])
    (hws : ∀ c ∈ nd, isWS c = false) (h : hasSub nd s = true) :
    hasSub nd (s.dropWhile isWS) = true := by
  rw [hasSub_iff] at h
  obtain ⟨u, v, rfl⟩ := h
  induction u with
  | nil =>
    cases nd with
    | nil => exact absurd rfl hne
    | cons a as =>
      have ha : isWS a = false := hws a (by simp)
      simp only [List.nil_append, List.cons_append, List.dropWhile_cons, ha]
      simp only [Bool.false_eq_true, if_false]
      rw [hasSub_iff]
      exact ⟨[], v, by simp⟩
  | cons a u' ih =>
    by_cases ha : isWS a = true
    · simpa [List.dropWhile_cons, ha] using ih
    · simp only [List.cons_append, List.dropWhile_cons, ha]
      simp only [Bool.false_eq_true, if_false]
      rw [hasSub_iff]
      exact ⟨a :: u', v, by simp⟩

/-- An occurrence of a nonempty whitespace-free needle survives `trimS`. -/
theorem hasSub_trimS {nd s : List Nat} (hne : nd ≠ [])
    (hws : ∀ c ∈ nd, isWS c = false) (h : hasSub nd s = true) :
    hasSub nd (trimS s) = true := by
  have h1 : hasSub nd (s.dropWhile isWS) = true := hasSub_dropWhile hne hws h
  have h2 : hasSub nd.reverse ((s.dropWhile isWS).reverse) = true := hasSub_reverse h1
  have h3 : hasSub nd.reverse (((s.dropWhile isWS).reverse).dropWhile isWS) = true := by
    refine hasSub_dropWhile ?_ ?_ h2
    · simpa using hne
    · intro c hc
      exact hws c (List.mem_reverse.mp hc)
  have h4 := hasSub_reverse h3
  simpa [trimS] using h4

/-- `dropWhile` produces a contiguous piece of the input. -/
theorem hasSub_dropWhile_self (p : Nat → Bool) (s : List Nat) :
    hasSub (s.dropWhile p) s = true := by
  rw [hasSub_iff]
  exact ⟨s.takeWhile p, [], by simp [List.takeWhile_append_dropWhile]⟩

/-- `trimS s` occurs inside `s`. -/
theorem hasSub_trimS_self (s : List Nat) : hasSub (trimS s) s = true := by
  have h1 : hasSub (s.dropWhile isWS) s = true := hasSub_dropWhile_self isWS s
  have h2 : hasSub ((s.dropWhile isWS).reverse.dropWhile isWS) (s.dropWhile isWS).reverse = true :=
    hasSub_dropWhile_self isWS (s.dropWhile isWS).reverse
  have h3 := hasSub_reverse h2
  rw [List.reverse_reverse] at h3
  exact hasSub_trans h3 h1

/-! ### `normalizeTopic` lemmas -/

/-- `normalizeTopic` either selects a category whose triggers fire on the
lower-cased trimmed topic, or falls back to `capitalizeS` with every trigger
of every category failing. -/
theorem normalizeTopic_cases (topic : List Nat) :
    (∃ p ∈ catTable, normalizeTopic topic = p.1 ∧ anyTrig p.2 (trimS (toLowerS topic)) = true) ∨
    (normalizeTopic topic = capitalizeS topic ∧
      ∀ p ∈ catTable, anyTrig p.2 (trimS (toLowerS topic)) = false) := by
  by_cases h1 : anyTrig finTrig (trimS (toLowerS topic)) = true
  · exact Or.inl ⟨(str "Finance", finTrig), by simp [catTable], by simp [normalizeTopic, h1], h1⟩
  by_cases h2 : anyTrig fitTrig (trimS (toLowerS topic)) = true
  · exact Or.inl ⟨(str "Fitness", fitTrig), by simp [catTable], by simp [normalizeTopic, h1, h2], h2⟩
  by_cases h3 : anyTrig foodTrig (trimS (toLowerS topic)) = true
  · exact Or.inl ⟨(str "Food", foodTrig), by simp [catTable],
      by simp [normalizeTopic, h1, h2, h3], h3⟩
  by_cases h4 : anyTrig techTrig (trimS (toLowerS topic)) = true
  · exact Or.inl ⟨(str "Tech", techTrig), by simp [catTable],
      by simp [normalizeTopic, h1, h2, h3, h4], h4⟩
  by_cases h5 : anyTrig travTrig (trimS (toLowerS topic)) = true
  · exact Or.inl ⟨(str "Travel", travTrig), by simp [catTable],
      by simp [normalizeTopic, h1, h2, h3, h4, h5], h5⟩
  by_cases h6 : anyTrig fashTrig (trimS (toLowerS topic)) = true
  · exact Or.inl ⟨(str "Fashion", fashTrig), by simp [catTable],
      by simp [normalizeTopic, h1, h2, h3, h4, h5, h6], h6⟩
  · refine Or.inr ⟨by simp [normalizeTopic, h1, h2, h3, h4, h5, h6], ?_⟩
    intro p hp
    simp only [catTable, List.mem_cons, List.mem_singleton] at hp
    rcases hp with rfl | rfl | rfl | rfl | rfl | rfl | h
    · simpa using h1
    · simpa using h2
    · simpa using h3
    · simpa using h4
    · simpa using h5
    · simpa using h6
    · cases h

/-- Each canonical label is a fixed point of `normalizeTopic`. -/
theorem normalizeTopic_label_fixed :
    ∀ L ∈ labels, normalizeTopic L = L := by decide

/-- Unfold `normalizeTopic` into its conditional form. -/
theorem normalizeTopic_eq_ite (topic : List Nat) :
    normalizeTopic topic =
      (if anyTrig finTrig (trimS (toLowerS topic)) then str "Finance"
       else if anyTrig fitTrig (trimS (toLowerS topic)) then str "Fitness"
       else if anyTrig foodTrig (trimS (toLowerS topic)) then str "Food"
       else if anyTrig techTrig (trimS (toLowerS topic)) then str "Tech"
       else if anyTrig travTrig (trimS (toLowerS topic)) then str "Travel"
       else if anyTrig fashTrig (trimS (toLowerS topic)) then str "Fashion"
       else capitalizeS topic) := rfl

/-- Every trigger substring is nonempty and whitespace-free. -/
theorem trig_wellformed :
    ∀ p ∈ catTable, ∀ g ∈ p.2, g ≠ [] ∧ ∀ c ∈ g, isWS c = false := by decide

/-- The first component of every category-table row is a canonical label. -/
theorem catTable_fst_label : ∀ p ∈ catTable, p.1 ∈ labels := by decide

/-- Canonical labels are nonempty and whitespace-free once lower-cased. -/
theorem label_lower_wellformed :
    ∀ L ∈ labels, toLowerS L ≠ [] ∧ ∀ c ∈ toLowerS L, isWS c = false := by decide

/-- The lower-cased name of each canonical label is one of its own triggers. -/
theorem label_lower_mem_trig :
    ∀ L ∈ labels, ∃ p ∈ catTable, p.1 = L ∧ toLowerS L ∈ p.2 := by decide

/-- No canonical label's lower-cased name occurs inside a different label. -/
theorem label_hasSub_label :
    ∀ L ∈ labels, ∀ M ∈ labels, hasSub (toLowerS L) (toLowerS M) = true → L = M := by decide

/-- A trigger occurring inside a lower-cased canonical label is that label's
own lower-cased name. -/
theorem trig_hasSub_label :
    ∀ p ∈ catTable, ∀ g ∈ p.2, ∀ M ∈ labels,
      hasSub g (toLowerS M) = true → g = toLowerS M := by decide

/-- If the lower-cased trimmed input is exactly a canonical label's
lower-cased name, `normalizeTopic` returns that label. -/
theorem normalizeTopic_of_trim_eq_label :
    ∀ L ∈ labels, ∀ t : List Nat,
      trimS (toLowerS t) = toLowerS L → normalizeTopic t = L := by
  intro L hL t ht
  rw [normalizeTopic_eq_ite, ht]
  fin_cases hL <;> rfl

/-- Claim C9 counterexample — the topic normalizer is not idempotent on all
topic strings: "ßtyle" matches no trigger and is capitalized via the full
upper-case mapping ß → "SS" to "SStyle", but re-normalizing "SStyle"
lower-cases it to "sstyle", which contains the Fashion trigger "style". -/
theorem normalizeTopic_idempotent_counterexample :
    normalizeTopic (str "ßtyle") = str "SStyle" ∧
    normalizeTopic (str "SStyle") = str "Fashion" ∧
    normalizeTopic (normalizeTopic (str "ßtyle")) ≠ normalizeTopic (str "ßtyle") := by
  decide

/-- Claim C9 (amended) — the topic normalizer is idempotent on every topic
string in the ASCII range (where case conversion is unit-to-unit):
canonical labels are fixed points, and on the fallback branch the
capitalized result lower-cases back to the same trigger-free input, so the
second normalization falls back to the idempotent capitalization. Topics
containing characters with full case mappings (such as ß) escape this, see
the counterexample. -/
theorem normalizeTopic_idempotent_ascii (topic : List Nat) (h : ∀ c ∈ topic, c < 128) :
    normalizeTopic (normalizeTopic topic) = normalizeTopic topic := by
  rcases normalizeTopic_cases topic with ⟨p, hp, heq, _⟩ | ⟨heq, hall⟩
  · have hl : p.1 ∈ labels := catTable_fst_label p hp
    rw [heq]
    exact normalizeTopic_label_fixed p.1 hl
  · rw [heq]
    have harg : trimS (toLowerS (capitalizeS topic)) = trimS (toLowerS topic) := by
      rw [toLowerS_capitalizeS_ascii h]
    rcases normalizeTopic_cases (capitalizeS topic) with ⟨p, hp, _, htrig⟩ | ⟨heq2, _⟩
    · rw [harg] at htrig
      have hfalse := hall p hp
      rw [hfalse] at htrig
      cases htrig
    · rw [heq2, capitalizeS_capitalizeS_ascii h]

/-- Claim C9 witness: the amended theorem applied to a concrete ASCII topic
that takes the fallback branch. -/
theorem normalizeTopic_idempotent_ascii_witness :
    normalizeTopic (normalizeTopic (str "mood boards")) =
      normalizeTopic (str "mood boards") :=
  normalizeTopic_idempotent_ascii (str "mood boards") (by decide)

/-! ### Stable insertion sort lemmas -/

theorem insertLe_mem {α : Type} (le : α → α → Bool) (x z : α) (l : List α) :
    z ∈ insertLe le x l ↔ z = x ∨ z ∈ l := by
  induction l with
  | nil => simp [insertLe]
  | cons y ys ih =>
    simp only [insertLe]
    split
    · simp only [List.mem_cons, ih]
      tauto
    · simp only [List.mem_cons]
      try tauto

theorem insertLe_pairwise {α : Type} (le : α → α → Bool)
    (htrans : ∀ a b c, le a b = true → le b c = true → le a c = true)
    (htotal : ∀ a b, le a b = true ∨ le b a = true) (x : α) (l : List α)
    (h : l.Pairwise (fun a b => le a b = true)) :
    (insertLe le x l).Pairwise (fun a b => le a b = true) := by
  induction l with
  | nil => simp [insertLe]
  | cons y ys ih =>
    rw [List.pairwise_cons] at h
    simp only [insertLe]
    split
    · rename_i hyx
      rw [List.pairwise_cons]
      refine ⟨?_, ih h.2⟩
      intro z hz
      rcases (insertLe_mem le x z ys).mp hz with rfl | hzys
      · exact hyx
      · exact h.1 z hzys
    · rename_i hyx
      have hxy : le x y = true := by
        rcases htotal x y with h' | h'
        · exact h'
        · exact absurd h' hyx
      rw [List.pairwise_cons]
      refine ⟨?_, List.pairwise_cons.mpr h⟩
      intro z hz
      rcases List.mem_cons.mp hz with rfl | hzys
      · exact hxy
      · exact htrans x y z hxy (h.1 z hzys)

theorem sortByLe_aux_pairwise {α : Type} (le : α → α → Bool)
    (htrans : ∀ a b c, le a b = true → le b c = true → le a c = true)
    (htotal : ∀ a b, le a b = true ∨ le b a = true) :
    ∀ (l acc : List α), acc.Pairwise (fun a b => le a b = true) →
      (l.foldl (fun acc x => insertLe le x acc) acc).Pairwise (fun a b => le a b = true) := by
  intro l
  induction l with
  | nil =>
    intro acc h
    simpa using h
  | cons x xs ih =>
    intro acc h
    exact ih _ (insertLe_pairwise le htrans htotal x acc h)

theorem sortByLe_pairwise {α : Type} (le : α → α → Bool)
    (htrans : ∀ a b c, le a b = true → le b c = true → le a c = true)
    (htotal : ∀ a b, le a b = true ∨ le b a = true) (l : List α) :
    (sortByLe le l).Pairwise (fun a b => le a b = true) :=
  sortByLe_aux_pairwise le htrans htotal l [] (by simp)

theorem jsOrZero_eq (x : Int) : jsOrZero x = x := by
  unfold jsOrZero
  split <;> omega

/-- The recency-descending primary sort yields a list sorted by
`dateAdded` descending. -/
theorem stableSortBy_dateDesc_pairwise (l : List SavedItem) :
    (stableSortBy (cmpPrimary .dateDesc) l).Pairwise
      (fun a b => b.dateAdded ≤ a.dateAdded) := by
  have h := sortByLe_pairwise (fun a b => decide (cmpPrimary .dateDesc a b ≤ 0))
    (by
      intro a b c h1 h2
      simp only [cmpPrimary, decide_eq_true_iff] at *
      omega)
    (by
      intro a b
      simp only [cmpPrimary, decide_eq_true_iff]
      omega) l
  refine h.imp ?_
  intro a b hab
  simp only [cmpPrimary, decide_eq_true_iff] at hab
  omega

/-! ### Claims about the filter pipeline -/

/-- Claim C1 — category filter correctness: with an active category other
than the sentinel "all", an item survives the category stage iff it was in
the input and either its normalized topic equals the category
case-insensitively or some tag's normalized form does; with the sentinel
"all" the stage keeps every item. -/
theorem category_filter_correct :
    (∀ (items : List SavedItem) (C : List Nat) (item : SavedItem), C ≠ str "all" →
      (item ∈ categoryStage C items ↔ item ∈ items ∧
        (toLowerS (normalizeTopic item.topic) = toLowerS C ∨
          ∃ t ∈ item.tags, toLowerS (normalizeTopic t) = toLowerS C))) ∧
    (∀ items : List SavedItem, categoryStage (str "all") items = items) := by
  constructor
  · intro items C item hC
    simp [categoryStage, hC, List.mem_filter, categoryKeep, List.any_eq_true]
  · intro items
    simp [categoryStage]

/-- Claim C1 witness at a concrete store and category. -/
theorem category_filter_correct_witness :
    itemA ∈ categoryStage (str "finance") [itemA, itemB] ↔ itemA ∈ [itemA, itemB] ∧
      (toLowerS (normalizeTopic itemA.topic) = toLowerS (str "finance") ∨
        ∃ t ∈ itemA.tags, toLowerS (normalizeTopic t) = toLowerS (str "finance")) :=
  category_filter_correct.1 [itemA, itemB] (str "finance") itemA (by decide)

/-- Claim C2 — all-words match implies inclusion: an item of the text
stage's input whose haystack contains every token of a non-empty tokenized
query survives the text stage for every intent value, including the absent
intent. -/
theorem text_allwords_inclusion (searchIntent : Option SearchIntent)
    (query : List Nat) (items : List SavedItem) (item : SavedItem)
    (hmem : item ∈ items) (hne : queryTokens query ≠ [])
    (hall : ∀ w ∈ queryTokens query, hasSub w (searchableText item) = true) :
    item ∈ textStage searchIntent query items := by
  have hq : query ≠ [] := by
    intro h
    subst h
    exact hne rfl
  simp only [textStage, if_pos hq, List.mem_filter]
  refine ⟨hmem, ?_⟩
  have hm : (queryTokens query).all (fun w => hasSub w (searchableText item)) = true :=
    List.all_eq_true.mpr hall
  simp [textKeep, hm]

/-- Claim C2 witness at a concrete item and query. -/
theorem text_allwords_inclusion_witness :
    itemB ∈ textStage none (str "pasta") [itemB] :=
  text_allwords_inclusion none (str "pasta") [itemB] itemB (by decide) (by decide)
    (by decide)

/-- Claim C3 counterexample — the claimed "once normalized" substring test
disagrees with the code: for the intent topic "ßtyle" and the item topic
"ßtylex", the primary all-words match fails and the claim's test succeeds
(normalize("ßtyle") = "SStyle" lower-cases to "sstyle", a substring of
"sstylex" = lower(normalize("ßtylex"))), yet the text filter drops the item
because the code tests the raw lower-cased topic "ßtyle", which does not
occur in "sstylex", and the normalized forms are not equal. -/
theorem text_fallback_intent_counterexample :
    ([str "zzz"].all (fun w => hasSub w (searchableText itemC))) = false ∧
    textKeep (some intentC) [str "zzz"] itemC = false ∧
    (∃ t ∈ intentC.topics,
      hasSub (toLowerS (normalizeTopic t)) (toLowerS (normalizeTopic itemC.topic)) = true ∨
      toLowerS (normalizeTopic t) = toLowerS (normalizeTopic itemC.topic)) := by
  decide

/-- Claim C3 (amended) — intent fallback as implemented: when the primary
all-words match fails and an intent is present, the text filter keeps an
item iff some intent keyword (lower-cased) occurs in the haystack, or some
intent topic lower-cased raw — not normalized — occurs as a substring of
the lower-cased normalized item topic, or the intent topic's normalized
form equals the normalized item topic case-insensitively. -/
theorem text_fallback_intent_amended (intent : SearchIntent)
    (queryWords : List (List Nat)) (item : SavedItem)
    (hfail : queryWords.all (fun w => hasSub w (searchableText item)) = false) :
    textKeep (some intent) queryWords item = true ↔
      (∃ k ∈ intent.keywords, hasSub (toLowerS k) (searchableText item) = true) ∨
      (∃ t ∈ intent.topics,
        hasSub (toLowerS t) (toLowerS (normalizeTopic item.topic)) = true ∨
        toLowerS (normalizeTopic t) = toLowerS (normalizeTopic item.topic)) := by
  have hk : textKeep (some intent) queryWords item =
      (intent.keywords.any (fun k => hasSub (toLowerS k) (searchableText item)) ||
        intent.topics.any (fun t =>
          hasSub (toLowerS t) (toLowerS (normalizeTopic item.topic)) ||
            (toLowerS (normalizeTopic t) == toLowerS (normalizeTopic item.topic)))) := by
    simp only [textKeep]
    rw [hfail]
    simp
  rw [hk]
  simp only [Bool.or_eq_true, List.any_eq_true, beq_iff_eq]

/-- Claim C3 witness: the amended theorem applied at a concrete intent and
item. -/
theorem text_fallback_intent_amended_witness :
    textKeep (some intentW) [str "zzz"] itemB = true ↔
      (∃ k ∈ intentW.keywords, hasSub (toLowerS k) (searchableText itemB) = true) ∨
      (∃ t ∈ intentW.topics,
        hasSub (toLowerS t) (toLowerS (normalizeTopic itemB.topic)) = true ∨
        toLowerS (normalizeTopic t) = toLowerS (normalizeTopic itemB.topic)) :=
  text_fallback_intent_amended intentW [str "zzz"] itemB (by decide)

/-- Claim C7 — absent intent degraded mode: with no intent the text filter
reduces to the exact all-words match (so an item failing the primary match
is dropped, with no fallback), the pipeline is exactly the
recency-descending sort of the two filter stages with no second pass and no
limit, and the output is ordered by `dateAdded` descending. -/
theorem no_intent_degraded (items : List SavedItem) (searchQuery activeFilter : List Nat) :
    (∀ (queryWords : List (List Nat)) (item : SavedItem),
      textKeep none queryWords item =
        queryWords.all (fun w => hasSub w (searchableText item))) ∧
    filteredItems items searchQuery activeFilter none =
      stableSortBy (cmpPrimary .dateDesc)
        (textStage none (trimS (toLowerS searchQuery)) (categoryStage activeFilter items)) ∧
    (filteredItems items searchQuery activeFilter none).Pairwise
      (fun a b => b.dateAdded ≤ a.dateAdded) := by
  refine ⟨?_, rfl, ?_⟩
  · intro queryWords item
    cases h : queryWords.all (fun w => hasSub w (searchableText item)) <;>
      simp [textKeep, h]
  · have heq : filteredItems items searchQuery activeFilter none =
        stableSortBy (cmpPrimary .dateDesc)
          (textStage none (trimS (toLowerS searchQuery)) (categoryStage activeFilter items)) := rfl
    rw [heq]
    exact stableSortBy_dateDesc_pairwise _

/-! ### Claim C4: engagement-descending tie-break -/

theorem cmpStab_eng_trans : ∀ a b c : SavedItem,
    decide (cmpStab .engagementDesc a b ≤ 0) = true →
    decide (cmpStab .engagementDesc b c ≤ 0) = true →
    decide (cmpStab .engagementDesc a c ≤ 0) = true := by
  intro a b c h1 h2
  simp only [cmpStab, jsOrZero_eq, decide_eq_true_iff, reduceIte] at *
  split_ifs at * <;> omega

theorem cmpStab_eng_total : ∀ a b : SavedItem,
    decide (cmpStab .engagementDesc a b ≤ 0) = true ∨
    decide (cmpStab .engagementDesc b a ≤ 0) = true := by
  intro a b
  simp only [cmpStab, jsOrZero_eq, decide_eq_true_iff, reduceIte]
  split_ifs <;> omega

/-- After the stabilization pass, the engagement-descending output is
sorted under the stabilization comparator. -/
theorem rankStage_eng_pairwise (l : List SavedItem) :
    (rankStage .engagementDesc l).Pairwise
      (fun a b => decide (cmpStab .engagementDesc a b ≤ 0) = true) := by
  have heq : rankStage .engagementDesc l =
      stableSortBy (cmpStab .engagementDesc) (stableSortBy (cmpPrimary .engagementDesc) l) := rfl
  rw [heq]
  exact sortByLe_pairwise _ cmpStab_eng_trans cmpStab_eng_total _

/-- Claim C4 (amended) — engagement-descending tie-break, restricted to
pairs with distinct `dateAdded` (the `iff` cannot hold when two items tie
on both score and date, see the counterexample): among the ranked items,
for equal engagement scores an earlier position is equivalent to a newer
`dateAdded`. -/
theorem engagement_tiebreak_amended (l : List SavedItem) (a b : SavedItem)
    (i j : Fin (rankStage .engagementDesc l).length)
    (hi : (rankStage .engagementDesc l).get i = a)
    (hj : (rankStage .engagementDesc l).get j = b)
    (hs : a.engagementScore = b.engagementScore)
    (hd : a.dateAdded ≠ b.dateAdded) :
    i < j ↔ b.dateAdded ≤ a.dateAdded := by
  have hpw := rankStage_eng_pairwise l
  rw [List.pairwise_iff_get] at hpw
  have hcab : cmpStab .engagementDesc a b = b.dateAdded - a.dateAdded := by
    simp [cmpStab, jsOrZero_eq, hs]
  have hcba : cmpStab .engagementDesc b a = a.dateAdded - b.dateAdded := by
    simp [cmpStab, jsOrZero_eq, hs]
  constructor
  · intro hij
    have h := hpw i j hij
    rw [hi, hj] at h
    rw [decide_eq_true_iff, hcab] at h
    omega
  · intro hba
    rcases lt_trichotomy i j with h | h | h
    · exact h
    · exfalso
      apply hd
      have : a = b := by rw [← hi, ← hj, h]
      rw [this]
    · exfalso
      have h' := hpw j i h
      rw [hi, hj] at h'
      rw [decide_eq_true_iff, hcba] at h'
      omega

/-- Claim C4 counterexample — the claimed `iff` fails as stated: `cItemX`
and `cItemY` have equal engagement scores and equal `dateAdded`, so
`cItemY.dateAdded ≥ cItemX.dateAdded` holds, yet `cItemY` does not precede
`cItemX` anywhere in the engagement-ranked output. -/
theorem engagement_tiebreak_counterexample :
    cItemX.dateAdded ≤ cItemY.dateAdded ∧
    cItemX.engagementScore = cItemY.engagementScore ∧
    ¬ ∃ i j : Fin (rankStage .engagementDesc [cItemX, cItemY]).length,
        i < j ∧ (rankStage .engagementDesc [cItemX, cItemY]).get i = cItemY ∧
          (rankStage .engagementDesc [cItemX, cItemY]).get j = cItemX := by
  decide

/-- Claim C4 witness: the amended theorem applied to the concrete ranked
pair `eItem1`, `eItem2`. -/
theorem engagement_tiebreak_amended_witness :
    eItem2.dateAdded ≤ eItem1.dateAdded :=
  (engagement_tiebreak_amended [eItem2, eItem1] eItem1 eItem2 ⟨0, by decide⟩ ⟨1, by decide⟩
    (by decide) (by decide) (by decide) (by decide)).mp (by decide)

/-! ### Persistence lemmas -/

theorem foldl_max_init (l : List SavedItem) (init : Int) :
    init ≤ l.foldl (fun m i => max m (jsOrZero i.sequenceNumber)) init := by
  induction l generalizing init with
  | nil => simp
  | cons x xs ih =>
    simp only [List.foldl_cons]
    exact le_trans (le_max_left _ _) (ih _)

theorem foldl_max_mem :
    ∀ (l : List SavedItem) (init : Int) (x : SavedItem), x ∈ l →
      jsOrZero x.sequenceNumber ≤ l.foldl (fun m i => max m (jsOrZero i.sequenceNumber)) init := by
  intro l
  induction l with
  | nil =>
    intro init x hx
    cases hx
  | cons y ys ih =>
    intro init x hx
    rcases List.mem_cons.mp hx with rfl | hmem
    · simp only [List.foldl_cons]
      exact le_trans (le_max_right _ _) (foldl_max_init ys _)
    · exact ih _ x hmem

theorem foldl_max_le (l : List SavedItem) (B : Int) :
    ∀ init : Int, init ≤ B → (∀ x ∈ l, jsOrZero x.sequenceNumber ≤ B) →
      l.foldl (fun m i => max m (jsOrZero i.sequenceNumber)) init ≤ B := by
  induction l with
  | nil =>
    intro init h _
    simpa using h
  | cons y ys ih =>
    intro init h hall
    simp only [List.foldl_cons]
    refine ih _ (max_le h (hall y (by simp))) ?_
    intro x hx
    exact hall x (by simp [hx])

/-- `maxSeq` computes the maximum of the stored sequence numbers, for
stores whose sequence numbers are non-negative (`0` for the empty store). -/
theorem maxSeq_eq (store : List SavedItem) (M : Int)
    (hbound : ∀ i ∈ store, 0 ≤ i.sequenceNumber ∧ i.sequenceNumber ≤ M)
    (hmax : (store = [] ∧ M = 0) ∨ ∃ i ∈ store, i.sequenceNumber = M) :
    maxSeq store = M := by
  rcases hmax with ⟨rfl, rfl⟩ | ⟨i, hi, hieq⟩
  · rfl
  · have h0M : 0 ≤ M := by
      have := hbound i hi
      omega
    have hle : maxSeq store ≤ M := by
      refine foldl_max_le store M 0 h0M ?_
      intro x hx
      rw [jsOrZero_eq]
      exact (hbound x hx).2
    have hge : M ≤ maxSeq store := by
      have h := foldl_max_mem store 0 i hi
      rw [jsOrZero_eq, hieq] at h
      exact h
    omega

theorem self_mem_putItem (store : List SavedItem) (item : SavedItem) :
    item ∈ putItem store item := by
  induction store with
  | nil => simp [putItem]
  | cons y ys ih =>
    simp only [putItem]
    split
    · simp
    · simp [ih]

/-- Claim C5 — sequence assignment: saving a sentinel (`-1`) item into a
store with maximum sequence number `M` (`0` when empty) upserts it with
sequence number `M + 1`; a second sentinel save receives a strictly larger
number; a non-sentinel save upserts by id with its sequence number
untouched. -/
theorem sequence_assignment (store : List SavedItem) (it1 it2 : SavedItem) (M : Int)
    (hbound : ∀ i ∈ store, 0 ≤ i.sequenceNumber ∧ i.sequenceNumber ≤ M)
    (hmax : (store = [] ∧ M = 0) ∨ ∃ i ∈ store, i.sequenceNumber = M)
    (h1 : it1.sequenceNumber = -1) (h2 : it2.sequenceNumber = -1) :
    saveItem store it1 = putItem store { it1 with sequenceNumber := M + 1 } ∧
    saveItem (saveItem store it1) it2 =
      putItem (saveItem store it1)
        { it2 with sequenceNumber := maxSeq (saveItem store it1) + 1 } ∧
    M + 1 < maxSeq (saveItem store it1) + 1 ∧
    (∀ it : SavedItem, it.sequenceNumber ≠ -1 → saveItem store it = putItem store it) := by
  have hM := maxSeq_eq store M hbound hmax
  have hpart1 : saveItem store it1 = putItem store { it1 with sequenceNumber := M + 1 } := by
    simp [saveItem, h1, hM]
  refine ⟨hpart1, by simp [saveItem, h2], ?_, ?_⟩
  · have hmem : ({ it1 with sequenceNumber := M + 1 } : SavedItem) ∈ saveItem store it1 := by
      rw [hpart1]
      exact self_mem_putItem _ _
    have h := foldl_max_mem (saveItem store it1) 0 _ hmem
    rw [jsOrZero_eq] at h
    simp only [maxSeq] at h ⊢
    omega
  · intro it hit
    simp [saveItem, hit]

/-- Claim C5 witness: a concrete store with maximum sequence number 1 and
two sentinel captures. -/
theorem sequence_assignment_witness :
    saveItem [itemA] newItem1 =
      putItem [itemA] { newItem1 with sequenceNumber := (1 : Int) + 1 } ∧
    (1 : Int) + 1 < maxSeq (saveItem [itemA] newItem1) + 1 ∧
    saveItem [itemA] itemB = putItem [itemA] itemB := by
  have h := sequence_assignment [itemA] newItem1 newItem2 1 (by decide) (by decide)
    (by decide) (by decide)
  exact ⟨h.1, h.2.2.1, h.2.2.2 itemB (by decide)⟩

theorem find?_append_cons (pre post : List SavedItem) (item : SavedItem) (id : List Nat)
    (hpre : ∀ i ∈ pre, (i.id == id) = false) (hitem : (item.id == id) = true) :
    (pre ++ item :: post).find? (fun i => i.id == id) = some item := by
  induction pre with
  | nil =>
    simp only [List.nil_append]
    exact List.find?_cons_of_pos _ hitem
  | cons y ys ih =>
    have hy : (y.id == id) = false := hpre y (by simp)
    simp only [List.cons_append]
    rw [List.find?_cons_of_neg _ (by simp [hy])]
    exact ih (fun i hi => hpre i (by simp [hi]))

theorem putItem_append_cons (pre post : List SavedItem) (item newItem : SavedItem)
    (hpre : ∀ i ∈ pre, (i.id == newItem.id) = false) (hitem : (item.id == newItem.id) = true) :
    putItem (pre ++ item :: post) newItem = pre ++ newItem :: post := by
  induction pre with
  | nil =>
    simp [putItem, hitem]
  | cons y ys ih =>
    have hy : (y.id == newItem.id) = false := hpre y (by simp)
    simp only [List.cons_append, putItem, hy, Bool.false_eq_true, if_false, List.append_eq]
    rw [ih (fun i hi => hpre i (by simp [hi]))]

/-- Claim C6 — `updateEnrichment` merges exactly as specified: the stored
record keeps its position; its tags become the insertion-order set union of
existing then patch tags; topic and summary are replaced; the engagement
score is replaced only by a present non-zero patch value; the title is
replaced only when the existing title is a known placeholder and the patch
supplies a (truthy) suggested title; the enriching flag is cleared; and
every other field is unchanged. -/
theorem update_enrichment_correct (pre post : List SavedItem) (item : SavedItem)
    (aiData : AIEnrichment)
    (hpre : ∀ i ∈ pre, (i.id == item.id) = false) :
    updateEnrichment (pre ++ item :: post) item.id aiData =
      pre ++ enrichedItem item aiData :: post ∧
    (enrichedItem item aiData).tags = insertionDedup (item.tags ++ aiData.tags) ∧
    (enrichedItem item aiData).topic = aiData.topic ∧
    (enrichedItem item aiData).summary = aiData.summary ∧
    (∀ v : Int, aiData.engagementScore = some v → v ≠ 0 →
      (enrichedItem item aiData).engagementScore = v) ∧
    (aiData.engagementScore = none ∨ aiData.engagementScore = some 0 →
      (enrichedItem item aiData).engagementScore = item.engagementScore) ∧
    ((enrichedItem item aiData).title ≠ item.title →
      placeholderTitle item.title = true ∧
      ∃ s, aiData.suggestedTitle = some s ∧ (enrichedItem item aiData).title = s) ∧
    (∀ s, placeholderTitle item.title = true → aiData.suggestedTitle = some s → s ≠ [] →
      (enrichedItem item aiData).title = s) ∧
    (enrichedItem item aiData).isEnriching = false ∧
    (enrichedItem item aiData).id = item.id ∧
    (enrichedItem item aiData).url = item.url ∧
    (enrichedItem item aiData).dateAdded = item.dateAdded ∧
    (enrichedItem item aiData).sequenceNumber = item.sequenceNumber ∧
    (enrichedItem item aiData).platform = item.platform ∧
    (enrichedItem item aiData).thumbnail = item.thumbnail ∧
    (enrichedItem item aiData).creator = item.creator ∧
    (enrichedItem item aiData).description = item.description := by
  have hitem : (item.id == item.id) = true := by simp
  have hfind : (pre ++ item :: post).find? (fun i => i.id == item.id) = some item :=
    find?_append_cons pre post item item.id hpre hitem
  have hput : putItem (pre ++ item :: post) (enrichedItem item aiData) =
      pre ++ enrichedItem item aiData :: post :=
    putItem_append_cons pre post item (enrichedItem item aiData) hpre hitem
  refine ⟨?_, rfl, rfl, rfl, ?_, ?_, ?_, ?_, rfl, rfl, rfl, rfl, rfl, rfl, rfl, rfl, rfl⟩
  · simp only [updateEnrichment, hfind]
    exact hput
  · intro v hv hnz
    simp [enrichedItem, hv, hnz]
  · rintro (h | h) <;> simp [enrichedItem, h]
  · intro hne
    rcases h : aiData.suggestedTitle with _ | s
    · exfalso
      apply hne
      simp [enrichedItem, h]
    · by_cases hc : (placeholderTitle item.title && !s.isEmpty) = true
      · refine ⟨(Bool.and_eq_true .. ▸ hc).1, s, rfl, ?_⟩
        simp [enrichedItem, h, hc]
      · exfalso
        apply hne
        simp only [enrichedItem, h]
        rw [if_neg]
        simpa using hc
  · intro s hpl hsome hne'
    have hs : s.isEmpty = false := by
      cases s with
      | nil => exact absurd rfl hne'
      | cons c cs => rfl
    simp [enrichedItem, hsome, hpl, hs]

/-- Claim C6 witness at a concrete store and patch. -/
theorem update_enrichment_correct_witness :
    updateEnrichment ([itemA] ++ itemB :: []) itemB.id patchA =
      [itemA] ++ enrichedItem itemB patchA :: [] ∧
    (enrichedItem itemB patchA).isEnriching = false := by
  have h := update_enrichment_correct [itemA] [] itemB patchA (by decide)
  exact ⟨h.1, h.2.2.2.2.2.2.2.2.1⟩

/-- Claim C10 — `updateEnrichment` with an id identifying no stored record
completes as a silent no-op, leaving the store entirely unchanged. -/
theorem update_enrichment_unknown_id (store : List SavedItem) (id : List Nat)
    (aiData : AIEnrichment) (h : ∀ i ∈ store, (i.id == id) = false) :
    updateEnrichment store id aiData = store := by
  have hfind : store.find? (fun i => i.id == id) = none := by
    rw [List.find?_eq_none]
    intro x hx
    simp [h x hx]
  simp [updateEnrichment, hfind]

/-- Claim C10 witness at a concrete store and unknown id. -/
theorem update_enrichment_unknown_id_witness :
    updateEnrichment [itemA, itemB] (str "zzz") patchA = [itemA, itemB] :=
  update_enrichment_unknown_id [itemA, itemB] (str "zzz") patchA (by decide)

/-! ### Claim C8: intent-extraction failure handling -/

/-- Claim C8 counterexample — a malformed (unparseable) intent-extraction
response is caught inside `getSearchIntent` and surfaces as a non-absent
fallback intent rather than the absent intent. -/
theorem intent_parse_failure_nonabsent :
    intentEffect (str "abcd") (GenContentOutcome.respond none) =
      some (fallbackIntent (str "abcd")) ∧
    intentEffect (str "abcd") (GenContentOutcome.respond none) ≠ none := by
  exact ⟨rfl, by decide⟩

/-- Claim C8 (amended) — when the extraction call itself rejects, the
orchestrator stores the absent intent; but when the response fails to
parse, `getSearchIntent` returns the fallback intent
`{keywords: [query], topics: [], intent: query}`, so only transport-level
failures surface as the absent intent. -/
theorem intent_failure_modes (searchQuery : List Nat)
    (hlen : 3 < (trimS searchQuery).length) :
    intentEffect searchQuery GenContentOutcome.reject = none ∧
    intentEffect searchQuery (GenContentOutcome.respond none) =
      some (fallbackIntent (trimS searchQuery)) := by
  constructor <;> simp [intentEffect, hlen, getSearchIntent]

/-- Claim C8 witness: the amended theorem applied at a concrete query. -/
theorem intent_failure_modes_witness :
    intentEffect (str "last reel") GenContentOutcome.reject = none :=
  (intent_failure_modes (str "last reel") (by decide)).1

end SaveIt
